import Mathlib

/-
Verification development for the `base_repository` data-access layer.

The Python sources are shallowly embedded:
  * `natsort.natsorted` (used by `PageableOperations.get_page`) is embedded as a
    stable insertion sort over alphanumeric chunk keys;
  * `PageableOperations.get_page` / `find_page` become pure functions taking the
    results of the two database round trips (count query and fetch query) as
    arguments, since the session is an external collaborator;
  * the `transactional` decorator and `transaction_context` context manager
    become a step function on an explicit session state (committed effects,
    pending effects, in-transaction flag, statement log);
  * `BasicOperations.update`, `BasicOperations.get_all`,
    `FindOperations.find_by_like` and the `ProcedureDialect` variants are
    embedded directly, with raised exceptions modelled as `Except` errors.
-/

namespace BaseRepo

/-! ### Natural sort: embedding of `natsort.natsorted`

`natsorted(items, key=..., reverse=...)` splits each key string into maximal
runs of digits and non-digits; digit runs compare by numeric value, so
`"item2" < "item10"`.  Python's `sorted` is stable, and `reverse=True` keeps
equal elements in their original order; a stable insertion sort over the same
total preorder computes the identical output, so `List.insertionSort` is the
faithful embedding of the sort itself. -/

inductive NatChunk where
  | str (s : String)
  | num (n : Nat)
deriving DecidableEq

/-- One step of splitting a string into alternating text/number chunks,
processing one character into an accumulator kept in reverse order. -/
def pushChar (acc : List NatChunk) (c : Char) : List NatChunk :=
  if c.isDigit then
    match acc with
    | NatChunk.num n :: rest => NatChunk.num (n * 10 + (c.toNat - 48)) :: rest
    | _ => NatChunk.num (c.toNat - 48) :: acc
  else
    match acc with
    | NatChunk.str s :: rest => NatChunk.str (s.push c) :: rest
    | _ => NatChunk.str (String.singleton c) :: acc

/-- The natsort key of a string: its decomposition into text and number
chunks, numbers taken by value. -/
def natKey (s : String) : List NatChunk :=
  (s.data.foldl pushChar []).reverse

/-- Code-point lexicographic comparison of character lists (Python's `str`
comparison). -/
def charsLe : List Char → List Char → Bool
  | [], _ => true
  | _ :: _, [] => false
  | a :: as, b :: bs => if a = b then charsLe as bs else decide (a.toNat ≤ b.toNat)

/-- Comparison of single chunks: numbers by value, text lexicographically,
and numbers sort before text (natsort's default for mixed chunks). -/
def chunkLe (a b : NatChunk) : Bool :=
  match a, b with
  | NatChunk.num m, NatChunk.num n => decide (m ≤ n)
  | NatChunk.num _, NatChunk.str _ => true
  | NatChunk.str _, NatChunk.num _ => false
  | NatChunk.str s, NatChunk.str t => charsLe s.data t.data

/-- Lexicographic comparison of chunk lists (the order `natsorted` sorts by). -/
def keyLe : List NatChunk → List NatChunk → Bool
  | [], _ => true
  | _ :: _, [] => false
  | a :: as, b :: bs => if a = b then keyLe as bs else chunkLe a b

theorem keyLe_refl (k : List NatChunk) : keyLe k k = true := by
  induction k with
  | nil => rfl
  | cons a as ih => simp [keyLe, ih]

/-- A converted row: an association list from field names to (stringified)
column values, in the field order produced by the conversion. -/
abbrev Rec := List (String × String)

/-- The sort key `get_page` passes to `natsorted`:
`lambda x: x.get(order_by, "")`. -/
def recKey (orderBy : String) (r : Rec) : String :=
  (r.lookup orderBy).getD ""

/-- The ordering relation realised by
`natsorted(items, key=lambda x: x.get(order_by, ""), reverse=(sort_order == "desc"))`. -/
def natRelation (orderBy : String) (desc : Bool) (a b : Rec) : Prop :=
  (if desc then keyLe (natKey (recKey orderBy b)) (natKey (recKey orderBy a))
   else keyLe (natKey (recKey orderBy a)) (natKey (recKey orderBy b))) = true

instance natRelation.instDecidable (orderBy : String) (desc : Bool) :
    DecidableRel (natRelation orderBy desc) := fun a b => by
  unfold natRelation
  infer_instance

/-- Embedding of the `natsorted(...)` call in `get_page`: a stable sort of the
converted records by natural key, ascending or descending. -/
def natsorted (orderBy : String) (desc : Bool) (l : List Rec) : List Rec :=
  List.insertionSort (natRelation orderBy desc) l

/-! ### Pageable query engine: embedding of `PageableOperations.get_page`

The SQL query construction (select / join / where) and its execution are the
external session collaborator; `get_page` is embedded as a pure function of
the two round-trip results: `totalItems` (the separate count query, mirroring
the same joins and filter) and `fetched` (the main query, executed with no
database-level limit or offset).  Everything after the round trips — row
conversion, conditional natural sort, in-memory slicing, page arithmetic — is
translated line by line from the Python source. -/

/-- Embedding of `PageInfo` (`page.py`). -/
structure PageInfo where
  current_page : Int
  page_size : Int
  total_items : Nat
  total_pages : Nat
deriving DecidableEq

/-- Embedding of `Page` (`page.py`), with `dict` rows as `Rec`. -/
structure Page where
  data : List Rec
  pagination : PageInfo
deriving DecidableEq

/-- Errors `get_page` raises before/instead of touching the database:
`ValueError` from `_validate_session` or the page/size check. -/
inductive PageErr where
  | valueError (msg : String)
deriving DecidableEq

/-- Embedding of `PageableOperations._order_dict_by_model`:
`{field: item[field] for field in self.model_fields if field in item}` —
the converted record's field order is fixed by the entity descriptor. -/
def order_dict_by_model (modelFields : List String) (item : Rec) : Rec :=
  modelFields.filterMap fun f => (item.lookup f).map fun v => (f, v)

/-- Python truthiness of the `sort_order` argument: `sort_order or "asc"`. -/
def resolveSortOrder : Option String → String
  | none => "asc"
  | some s => if s == "" then "asc" else s

/-- Embedding of `PageableOperations.get_page`.  `sessionInit` is whether
`self.session` is set; `fetched` and `totalItems` are the results of the main
query and of the separate count query. -/
def get_page (modelFields : List String) (sessionInit : Bool)
    (fetched : List Rec) (totalItems : Nat) (page size : Int)
    (orderBy sortOrder : Option String) : Except PageErr Page :=
  if ¬ sessionInit then Except.error (PageErr.valueError "Session not initialized")
  else if page < 1 ∨ size < 1 then
    Except.error (PageErr.valueError "Page and size must be greater than 0.")
  else
    let so := resolveSortOrder sortOrder
    let items := fetched.map (order_dict_by_model modelFields)
    let items2 :=
      match orderBy with
      | some ob => if ob == "" then items else natsorted ob (so == "desc") items
      | none => items
    let start := ((page - 1) * size).toNat
    let paginated := (items2.drop start).take size.toNat
    let totalPages := if 0 < totalItems then (totalItems + size.toNat - 1) / size.toNat else 1
    Except.ok ⟨paginated, ⟨page, size, totalItems, totalPages⟩⟩

/-! ### Transaction coordinator: embedding of `transactional` / `transaction_context`

The session is modelled as an explicit state: committed effects, pending
(uncommitted) effects, the `in_transaction()` flag, and a log of every
statement executed.  A unit of work is a function from the attempt index
(the decorator's `retries` counter at the time of the call) to an outcome:
it either returns after executing some effects, raises `SQLAlchemyError`
after executing some effects, or raises a non-database exception.
`TransactionError` and its subclasses derive from `Exception`, not from
`SQLAlchemyError` (`decorator_exception.py`), so a wrapped body error escapes
the decorator's `except SQLAlchemyError` retry handler. -/

def MAX_RETRIES : Nat := 5

/-- `RETRY_DELAY = 0.1` seconds, in milliseconds. -/
def RETRY_DELAY_MS : Nat := 100

/-- A statement executed on the session: one of the two isolation directives
issued by `transaction_context`, or a data-modifying effect of the body. -/
inductive Stmt where
  | setReadOnly
  | setRepeatableRead
  | eff (e : String)
deriving DecidableEq

/-- Session/transaction state visible to the embedding. -/
structure DbState where
  committed : List String
  pending : List String
  inTx : Bool
  log : List Stmt
deriving DecidableEq

/-- Outcome of one invocation of the wrapped unit of work. -/
inductive BodyOutcome where
  | ok (effs : List String)
  | sqlErr (effs : List String)
  | otherErr
deriving DecidableEq

/-- What one pass through `transaction_context` does with the exception that
leaves it (if any). -/
inductive AttemptResult where
  | success
  | sqlError
  | txErrorRaised
deriving DecidableEq

/-- Executing one body effect: the statement is logged, its change becomes
pending, and the session is now inside a transaction. -/
def execEff (s : DbState) (e : String) : DbState :=
  ⟨s.committed, s.pending ++ [e], true, s.log ++ [Stmt.eff e]⟩

def runEffs (s : DbState) (effs : List String) : DbState :=
  effs.foldl execEff s

/-- The configuration step of `transaction_context`: `SET TRANSACTION READ
ONLY` when `read_only`, else `SET TRANSACTION ISOLATION LEVEL REPEATABLE
READ` when `auto_concurrent`, each only when not already in a transaction.
Executing the directive starts a transaction. -/
def configure (ro ac : Bool) (s : DbState) : DbState :=
  if ro then
    if ¬ s.inTx then ⟨s.committed, s.pending, true, s.log ++ [Stmt.setReadOnly]⟩ else s
  else if ac ∧ ¬ s.inTx then
    ⟨s.committed, s.pending, true, s.log ++ [Stmt.setRepeatableRead]⟩
  else s

/-- `session.commit()`: pending effects become durable. -/
def commit (s : DbState) : DbState :=
  ⟨s.committed ++ s.pending, [], false, s.log⟩

/-- `session.rollback()`: pending effects are discarded. -/
def rollback (s : DbState) : DbState :=
  ⟨s.committed, [], false, s.log⟩

/-- One pass through `transaction_context` around one body invocation:
configure, run the body, then commit on success (unless read-only) or roll
back on any exception.  A `SQLAlchemyError` is re-raised as is; any other
exception is converted to `TransactionError`, which the caller's
`except SQLAlchemyError` does not catch. -/
def attemptOnce (ro ac : Bool) (out : BodyOutcome) (s : DbState) : DbState × AttemptResult :=
  let s1 := configure ro ac s
  match out with
  | BodyOutcome.ok effs =>
      let s2 := runEffs s1 effs
      if ro then (s2, AttemptResult.success) else (commit s2, AttemptResult.success)
  | BodyOutcome.sqlErr effs => (rollback (runEffs s1 effs), AttemptResult.sqlError)
  | BodyOutcome.otherErr => (rollback s1, AttemptResult.txErrorRaised)

/-- How the `while retries < MAX_RETRIES` loop in `transactional.wrapper`
terminates. -/
inductive TxResult where
  | ok
  | raisedSql
  | raisedTx
  | fellThrough
deriving DecidableEq

/-- The retry loop of `transactional.wrapper`, with `fuel = MAX_RETRIES -
retries` making the `while` guard structural: `fuel = 0` exactly when
`retries < MAX_RETRIES` fails.  On `SQLAlchemyError`, the loop retries (after
one `time.sleep(RETRY_DELAY)`) only when `retries < MAX_RETRIES - 1` and the
transaction is not read-only; otherwise the error propagates.  `sleeps`
counts the executed delays. -/
def txLoop (ro ac : Bool) (beh : Nat → BodyOutcome) :
    Nat → Nat → Nat → DbState → DbState × Nat × TxResult
  | 0, _, sleeps, s => (s, sleeps, TxResult.fellThrough)
  | fuel + 1, retries, sleeps, s =>
      match attemptOnce ro ac (beh retries) s with
      | (s1, AttemptResult.success) => (s1, sleeps, TxResult.ok)
      | (s1, AttemptResult.txErrorRaised) => (s1, sleeps, TxResult.raisedTx)
      | (s1, AttemptResult.sqlError) =>
          if retries < MAX_RETRIES - 1 ∧ ro = false then
            txLoop ro ac beh fuel (retries + 1) (sleeps + 1) s1
          else (s1, sleeps, TxResult.raisedSql)

/-- Embedding of a call to a `@transactional(auto_concurrent=ac,
read_only=ro)`-wrapped unit of work, after session resolution succeeded. -/
def transactionalRun (ro ac : Bool) (beh : Nat → BodyOutcome) (s : DbState) :
    DbState × Nat × TxResult :=
  txLoop ro ac beh MAX_RETRIES 0 0 s

/-! ### Repository core: `BasicOperations.update`, `BasicOperations.get_all`,
`FindOperations.find_by_like`

An entity instance is an association list from field names to values; the
entity type descriptor is the list of its field names (`model_fields`).
A `hasattr` check on an instance of the bound model class is membership in
that field list.  The session's identity map is a store from ids to
entities; `session.get` is an id lookup, and `setattr` mutates the stored
record in place. -/

abbrev Entity := List (String × String)

abbrev Store := List (Int × Entity)

/-- Errors of the repository error hierarchy
(`base_repository_exception.py`) that these operations raise. -/
inductive RepoErr where
  | validationError (msg : String)
  | entityNotFound (msg : String)
deriving DecidableEq

/-- `setattr(db_entity, key, value)` on an association-list entity: every
binding of `key` is overwritten, all other bindings are untouched. -/
def setAttr (e : Entity) (k v : String) : Entity :=
  e.map fun kv => if kv.1 = k then (kv.1, v) else kv

/-- The update loop of `BasicOperations.update`:
`for key, value in entity.model_dump(exclude_unset=True).items():` — each
explicitly-set field is validated with `hasattr` and copied with `setattr`.
The (possibly partially mutated) entity is returned with the error, because
`setattr` mutates the session-held record before a later key can fail. -/
def applyDump (modelFields : List String) : Entity → List (String × String) → Entity × Option RepoErr
  | e, [] => (e, none)
  | e, (k, v) :: rest =>
      if modelFields.contains k then applyDump modelFields (setAttr e k v) rest
      else (e, some (RepoErr.validationError ("Invalid field: " ++ k)))

/-- Writing the mutated record back into the identity map. -/
def storeSet (st : Store) (id : Int) (e : Entity) : Store :=
  st.map fun p => if p.1 = id then (p.1, e) else p

/-- Embedding of `BasicOperations.update(session, id, entity)` after the
session/id/entity-type `isinstance` validations (which the types of the
embedding discharge): load by id, not-found error if missing, copy every
explicitly-set field (`dump`) onto the stored record, flush.  Returns the
store after the call together with the result. -/
def update (modelFields : List String) (st : Store) (id : Int)
    (dump : List (String × String)) : Store × Except RepoErr Entity :=
  match st.lookup id with
  | none => (st, Except.error (RepoErr.entityNotFound ("Entity not found with ID: " ++ toString id)))
  | some e =>
      match applyDump modelFields e dump with
      | (e2, some err) => (storeSet st id e2, Except.error err)
      | (e2, none) => (storeSet st id e2, Except.ok e2)

/-- The statement `BasicOperations.get_all` builds and hands to
`session.exec`; query execution itself is the external collaborator. -/
structure QueryStmt where
  filters : List (String × String)
  orderField : Option (String × Bool)
deriving DecidableEq

/-- The `where` validation loop of `get_all`: the first unknown field name
raises `ValidationError`. -/
def validateWhere (modelFields : List String) : List (String × String) → Option RepoErr
  | [] => none
  | (f, _) :: rest =>
      if modelFields.contains f then validateWhere modelFields rest
      else some (RepoErr.validationError ("Invalid field name: " ++ f))

/-- Embedding of `BasicOperations.get_all(session, where, order_by,
sort_order)` up to the built statement: session and `sort_order` validation,
equality-filter construction with field-name validation, then `order_by`
validation (`if order_by:` is Python truthiness, so `None` and `""` skip
it) against the model's fields. -/
def get_all (modelFields : List String) (sessionOk : Bool)
    (whereMap : List (String × String)) (orderBy : Option String)
    (sortOrder : String) : Except RepoErr QueryStmt :=
  if ¬ sessionOk then Except.error (RepoErr.validationError "Valid database session required")
  else if ¬ (sortOrder = "asc" ∨ sortOrder = "desc") then
    Except.error (RepoErr.validationError "sort_order must be either 'asc' or 'desc'")
  else
    match validateWhere modelFields whereMap with
    | some err => Except.error err
    | none =>
        match orderBy with
        | none => Except.ok ⟨whereMap, none⟩
        | some ob =>
            if ob = "" then Except.ok ⟨whereMap, none⟩
            else if modelFields.contains ob then
              Except.ok ⟨whereMap, some (ob, sortOrder = "desc")⟩
            else Except.error (RepoErr.validationError ("Invalid order_by field: " ++ ob))

/-- Whether `needle` is character-for-character at the start of `hay`. -/
def startsWithChars : List Char → List Char → Bool
  | [], _ => true
  | _ :: _, [] => false
  | n :: ns, h :: hs => n == h && startsWithChars ns hs

/-- Whether `needle` occurs contiguously anywhere in `hay`. -/
def containsChars : List Char → List Char → Bool
  | [], needle => needle.isEmpty
  | h :: t, needle => startsWithChars needle (h :: t) || containsChars t needle

/-- SQL `LIKE '%value%'` with standard (PostgreSQL) semantics: a
case-sensitive substring match.  A missing column value is NULL, which
matches nothing. -/
def likeContains (hay needle : String) : Bool :=
  containsChars hay.data needle.data

/-- Embedding of `FindOperations.find_by_like(fields, value)` over the
entities the session holds: session check, blank-value check
(`not value.strip()`, i.e. every character is whitespace), field-name
validation, then an OR of `column.like(f"%{value}%")` filters, evaluated
with `LIKE` semantics. -/
def find_by_like (modelFields : List String) (sessionOk : Bool)
    (entities : List Entity) (fields : List String) (value : String) :
    Except RepoErr (List Entity) :=
  if ¬ sessionOk then Except.error (RepoErr.validationError "Session not initialized")
  else if value.data.all Char.isWhitespace then
    Except.error (RepoErr.validationError "Valid search value required")
  else
    match fields.find? (fun f => !(modelFields.contains f)) with
    | some f => Except.error (RepoErr.validationError ("Invalid field: " ++ f))
    | none =>
        Except.ok (entities.filter fun e =>
          fields.any fun f =>
            match e.lookup f with
            | some s => likeContains s value
            | none => false)

/-! ### Dialect strategy: `procedure_dialect.py`

`ProcedureDialect.build_call` is abstract; its body holds the input
validation its docstring promises (`ProcedureValidationError` on an empty or
non-string name, or non-dict params).  Each concrete dialect overrides
`build_call` without calling the base implementation.  Parameters are
modelled by their key list (`params.keys()`); the non-string/non-dict
`isinstance` branches are not expressible in the typed embedding and the
empty-name branch carries the claim. -/

inductive ProcErr where
  | procedureValidation (msg : String)
deriving DecidableEq

/-- The validation body of the abstract `ProcedureDialect.build_call`. -/
def buildCallBaseValidate (name : String) : Except ProcErr Unit :=
  if name = "" then Except.error (ProcErr.procedureValidation "Valid procedure name required")
  else Except.ok ()

def PostgreSQLDialect.build_call (name : String) (params : List String) : String :=
  "CALL " ++ name ++ "(" ++ String.intercalate "," (params.map fun p => ":" ++ p) ++ ")"

def MySQLDialect.build_call (name : String) (params : List String) : String :=
  "CALL " ++ name ++ "(" ++ String.intercalate "," (params.map fun p => ":" ++ p) ++ ")"

def SQLServerDialect.build_call (name : String) (params : List String) : String :=
  "EXEC " ++ name ++ " " ++ String.intercalate ", " (params.map fun p => "@" ++ p ++ "=:" ++ p)

def OracleDialect.build_call (name : String) (params : List String) : String :=
  "BEGIN " ++ name ++ "(" ++ String.intercalate "," (params.map fun p => ":" ++ p) ++ "); END;"

/-! ### Helper lemmas about the session-state embedding -/

theorem runEffs_committed (effs : List String) (s : DbState) :
    (runEffs s effs).committed = s.committed := by
  induction effs generalizing s with
  | nil => rfl
  | cons e rest ih => simpa [runEffs, List.foldl_cons, execEff] using ih (execEff s e)

theorem runEffs_pending (effs : List String) (s : DbState) :
    (runEffs s effs).pending = s.pending ++ effs := by
  induction effs generalizing s with
  | nil => simp [runEffs]
  | cons e rest ih =>
      have h := ih (execEff s e)
      simp only [runEffs, List.foldl_cons, execEff] at h ⊢
      simp [h]

theorem runEffs_log (effs : List String) (s : DbState) :
    (runEffs s effs).log = s.log ++ effs.map Stmt.eff := by
  induction effs generalizing s with
  | nil => simp [runEffs]
  | cons e rest ih =>
      have h := ih (execEff s e)
      simp only [runEffs, List.foldl_cons, execEff] at h ⊢
      simp [h]

theorem configure_committed (ro ac : Bool) (s : DbState) :
    (configure ro ac s).committed = s.committed := by
  unfold configure
  split_ifs <;> rfl

theorem configure_pending (ro ac : Bool) (s : DbState) :
    (configure ro ac s).pending = s.pending := by
  unfold configure
  split_ifs <;> rfl

/-- A pass of `transaction_context` starting from a clean state (nothing
pending, not in a transaction) with `auto_concurrent=True, read_only=False`,
whose body raises `SQLAlchemyError`: isolation directive issued, partial
effects rolled back. -/
theorem attemptOnce_clean_sqlErr (effs c : List String) (log : List Stmt) :
    attemptOnce false true (BodyOutcome.sqlErr effs) ⟨c, [], false, log⟩ =
      (⟨c, [], false, (log ++ [Stmt.setRepeatableRead]) ++ effs.map Stmt.eff⟩,
        AttemptResult.sqlError) := by
  simp [attemptOnce, configure, rollback, runEffs_committed, runEffs_log]

/-- A pass of `transaction_context` from a clean state whose body returns:
isolation directive issued, body effects committed exactly once. -/
theorem attemptOnce_clean_ok (effs c : List String) (log : List Stmt) :
    attemptOnce false true (BodyOutcome.ok effs) ⟨c, [], false, log⟩ =
      (⟨c ++ effs, [], false, (log ++ [Stmt.setRepeatableRead]) ++ effs.map Stmt.eff⟩,
        AttemptResult.success) := by
  simp [attemptOnce, configure, commit, runEffs_committed, runEffs_pending, runEffs_log]

theorem count_setRR_map_eff (l : List String) :
    (l.map Stmt.eff).count Stmt.setRepeatableRead = 0 := by
  induction l with
  | nil => rfl
  | cons e rest ih => simp [List.count_cons, ih]

/-- Induction skeleton for the retry loop: starting at attempt `retries` with
`MAX_RETRIES - retries` iterations left, if the next `j` body invocations
raise a transient error and the one after succeeds (all within the budget),
the loop returns success with the body's effects committed exactly once,
exactly `j` retry delays slept, and one isolation-configure step per
attempt. -/
theorem txLoop_counts (beh : Nat → BodyOutcome) (failEffs : Nat → List String)
    (okEffs : List String) :
    ∀ (j retries sleeps : Nat) (c0 : List String) (log : List Stmt),
      retries + j < MAX_RETRIES →
      (∀ i, retries ≤ i → i < retries + j → beh i = BodyOutcome.sqlErr (failEffs i)) →
      beh (retries + j) = BodyOutcome.ok okEffs →
      ∃ finalLog : List Stmt,
        txLoop false true beh (MAX_RETRIES - retries) retries sleeps ⟨c0, [], false, log⟩ =
          (⟨c0 ++ okEffs, [], false, finalLog⟩, sleeps + j, TxResult.ok) ∧
        finalLog.count Stmt.setRepeatableRead = log.count Stmt.setRepeatableRead + (j + 1) := by
  intro j
  induction j with
  | zero =>
      intro retries sleeps c0 log hlt _ hok
      obtain ⟨f, hf⟩ : ∃ f, MAX_RETRIES - retries = f + 1 :=
        ⟨MAX_RETRIES - retries - 1, by omega⟩
      rw [hf]
      rw [Nat.add_zero] at hok
      refine ⟨(log ++ [Stmt.setRepeatableRead]) ++ okEffs.map Stmt.eff, ?_, ?_⟩
      · simp [txLoop, hok, attemptOnce_clean_ok]
      · simp [List.count_append, List.count_cons, count_setRR_map_eff]
  | succ j ih =>
      intro retries sleeps c0 log hlt hfail hok
      obtain ⟨f, hf⟩ : ∃ f, MAX_RETRIES - retries = f + 1 :=
        ⟨MAX_RETRIES - retries - 1, by omega⟩
      rw [hf]
      have h0 : beh retries = BodyOutcome.sqlErr (failEffs retries) :=
        hfail retries (Nat.le_refl _) (by omega)
      have hrec := ih (retries + 1) (sleeps + 1) c0
        ((log ++ [Stmt.setRepeatableRead]) ++ (failEffs retries).map Stmt.eff)
        (by omega)
        (fun i h1 h2 => hfail i (by omega) (by omega))
        (by rw [show retries + 1 + j = retries + (j + 1) from by omega]; exact hok)
      obtain ⟨finalLog, heq, hcount⟩ := hrec
      refine ⟨finalLog, ?_, ?_⟩
      · simp only [txLoop, h0, attemptOnce_clean_sqlErr]
        rw [if_pos (show retries < MAX_RETRIES - 1 ∧ True from ⟨by omega, trivial⟩)]
        rw [show f = MAX_RETRIES - (retries + 1) from by omega]
        rw [heq]
        rw [show sleeps + 1 + j = sleeps + (j + 1) from by omega]
      · rw [hcount]
        simp [List.count_append, List.count_cons, count_setRR_map_eff]
        omega

/-- C1: with `read_only=False`, the whole transaction (configure + body +
commit) is re-entered from scratch on each transient `SQLAlchemyError`, up to
`MAX_RETRIES` (5) attempts with one fixed `RETRY_DELAY` sleep between
attempts; a unit of work failing transiently exactly `k < MAX_RETRIES` times
and then succeeding makes the wrapped call succeed with the body's committed
side effect observed exactly once, after exactly `k` delays and `k + 1`
configure steps. -/
theorem transactional_transient_retry (k : Nat) (hk : k < MAX_RETRIES)
    (beh : Nat → BodyOutcome) (failEffs : Nat → List String) (okEffs : List String)
    (hfail : ∀ i, i < k → beh i = BodyOutcome.sqlErr (failEffs i))
    (hok : beh k = BodyOutcome.ok okEffs) (c0 : List String) :
    ∃ finalLog : List Stmt,
      transactionalRun false true beh ⟨c0, [], false, []⟩ =
        (⟨c0 ++ okEffs, [], false, finalLog⟩, k, TxResult.ok) ∧
      finalLog.count Stmt.setRepeatableRead = k + 1 := by
  have h := txLoop_counts beh failEffs okEffs k 0 0 c0 []
    (by omega) (fun i h1 h2 => hfail i (by omega)) (by simpa using hok)
  obtain ⟨finalLog, heq, hcount⟩ := h
  refine ⟨finalLog, ?_, ?_⟩
  · unfold transactionalRun
    simpa using heq
  · simpa using hcount

def c1beh : Nat → BodyOutcome := fun i =>
  if i < 2 then BodyOutcome.sqlErr ["half-done write"] else BodyOutcome.ok ["insert row"]

def c1failEffs : Nat → List String := fun _ => ["half-done write"]

theorem transactional_transient_retry_witness :
    2 < MAX_RETRIES ∧
    ∃ finalLog : List Stmt,
      transactionalRun false true c1beh ⟨[], [], false, []⟩ =
        (⟨[] ++ ["insert row"], [], false, finalLog⟩, 2, TxResult.ok) ∧
      finalLog.count Stmt.setRepeatableRead = 2 + 1 :=
  ⟨by decide, transactional_transient_retry 2 (by decide) c1beh c1failEffs ["insert row"]
    (by intro i hi; interval_cases i <;> rfl) rfl []⟩

/-- C4: with `read_only=True` the wrapper never retries: a transient
`SQLAlchemyError` on the first attempt propagates immediately after rollback
(no sleeps, pending effects discarded, committed state untouched), regardless
of the retry budget. -/
theorem readonly_never_retries (ac : Bool) (beh : Nat → BodyOutcome)
    (effs : List String) (h0 : beh 0 = BodyOutcome.sqlErr effs) (s : DbState) :
    transactionalRun true ac beh s =
      (rollback (runEffs (configure true ac s) effs), 0, TxResult.raisedSql) ∧
    (transactionalRun true ac beh s).1.committed = s.committed ∧
    (transactionalRun true ac beh s).1.pending = [] := by
  have hmain : transactionalRun true ac beh s =
      (rollback (runEffs (configure true ac s) effs), 0, TxResult.raisedSql) := by
    unfold transactionalRun
    rw [show MAX_RETRIES = 4 + 1 from rfl]
    simp [txLoop, h0, attemptOnce]
  refine ⟨hmain, ?_, ?_⟩
  · rw [hmain]
    simp [rollback, runEffs_committed, configure_committed]
  · rw [hmain]
    simp [rollback]

def c4beh : Nat → BodyOutcome := fun _ => BodyOutcome.sqlErr ["stale write"]

def c4state : DbState := ⟨["seed row"], [], false, []⟩

theorem readonly_never_retries_witness :
    c4beh 0 = BodyOutcome.sqlErr ["stale write"] ∧
    (transactionalRun true true c4beh c4state =
        (rollback (runEffs (configure true true c4state) ["stale write"]), 0,
          TxResult.raisedSql) ∧
      (transactionalRun true true c4beh c4state).1.committed = c4state.committed ∧
      (transactionalRun true true c4beh c4state).1.pending = []) :=
  ⟨rfl, readonly_never_retries true c4beh ["stale write"] rfl c4state⟩

/-- C7: contrary to the claim, no concrete dialect's `build_call` validates
its inputs: the validation lives only in the abstract base method, which the
overrides never invoke, so an empty procedure name — which the base body (and
the method's own docstring) rejects with `ProcedureValidationError` — flows
through every dialect and yields a malformed call string. -/
theorem build_call_skips_base_validation :
    buildCallBaseValidate "" =
      Except.error (ProcErr.procedureValidation "Valid procedure name required") ∧
    PostgreSQLDialect.build_call "" ["a"] = "CALL (:a)" ∧
    MySQLDialect.build_call "" ["a"] = "CALL (:a)" ∧
    SQLServerDialect.build_call "" ["a"] = "EXEC  @a=:a" ∧
    OracleDialect.build_call "" ["a"] = "BEGIN (:a); END;" :=
  ⟨rfl, rfl, rfl, rfl, rfl⟩

def c8e1 : Entity := [("name", "John Doe")]

def c8e2 : Entity := [("name", "Ann"), ("email", "john@x.com")]

def c8e3 : Entity := [("name", "Bob")]

/-- C8: contrary to the claim (and to the method's own docstring, which
promises a case-insensitive match), `find_by_like` emits `column.like`, the
case-sensitive `LIKE` operator (PostgreSQL semantics; `find_page` uses
`ilike` for the insensitive match): on the claim's scenario it returns only
the entity whose `email` contains the lowercase `"john"`, dropping
`{name: "John Doe"}`.  Blank values still fail validation. -/
theorem find_by_like_is_case_sensitive :
    find_by_like ["name", "email"] true [c8e1, c8e2, c8e3] ["name", "email"] "john" =
      Except.ok [c8e2] ∧
    likeContains "John Doe" "john" = false ∧
    find_by_like ["name", "email"] true [c8e1, c8e2, c8e3] ["name", "email"] " " =
      Except.error (RepoErr.validationError "Valid search value required") :=
  ⟨rfl, rfl, rfl⟩

/-- C10: `PostgreSQLDialect.build_call` and `MySQLDialect.build_call` are
extensionally equal — for every procedure name and parameter key list they
produce the identical `CALL name(:k1,...,:kn)` string. -/
theorem postgres_mysql_build_call_eq (name : String) (params : List String) :
    PostgreSQLDialect.build_call name params = MySQLDialect.build_call name params :=
  rfl

/-- A stable sort of an already-sorted list is the identity (shared helper). -/
theorem natsorted_of_sorted (orderBy : String) (desc : Bool) (l : List Rec)
    (h : List.Sorted (natRelation orderBy desc) l) :
    natsorted orderBy desc l = l := by
  unfold natsorted
  exact List.Sorted.insertionSort_eq h

/-- C5: natural sort is idempotent — a record sequence already in
natural-sort order for a given key and direction is returned unchanged,
element for element, when sorted again by the same key and direction (the
sort `get_page` performs when `order_by` is given). -/
theorem natsorted_idempotent (orderBy : String) (desc : Bool) (l : List Rec)
    (h : List.Sorted (natRelation orderBy desc) l) :
    natsorted orderBy desc l = l :=
  natsorted_of_sorted orderBy desc l h

def c5recs : List Rec :=
  [[("name", "item2")], [("name", "item10")], [("name", "x")]]

theorem natsorted_idempotent_witness :
    List.Sorted (natRelation "name" false) c5recs ∧
    natsorted "name" false c5recs = c5recs :=
  ⟨by decide, natsorted_idempotent "name" false c5recs (by decide)⟩

/-! ### Lemmas about row conversion and the unvalidated `order_by` key -/

/-- Converted records only carry model fields: looking up a non-field gives
`none` (so `x.get(order_by, "")` falls back to the empty string). -/
theorem order_dict_lookup_of_not_mem (modelFields : List String) (ob : String)
    (hob : ob ∉ modelFields) (r : Rec) :
    (order_dict_by_model modelFields r).lookup ob = none := by
  induction modelFields with
  | nil => rfl
  | cons f fs ih =>
      have hne : ob ≠ f := fun h => hob (h ▸ List.mem_cons_self f fs)
      have ih2 := ih fun h => hob (List.mem_cons_of_mem f h)
      unfold order_dict_by_model at ih2 ⊢
      simp only [List.filterMap_cons]
      cases hr : r.lookup f with
      | none => exact ih2
      | some v => simpa [List.lookup, beq_eq_false_iff_ne.mpr hne] using ih2

theorem pairwise_of_forall_mem {α : Type} {R : α → α → Prop} :
    ∀ l : List α, (∀ a ∈ l, ∀ b ∈ l, R a b) → l.Pairwise R
  | [], _ => List.Pairwise.nil
  | a :: t, h =>
      List.Pairwise.cons
        (fun b hb => h a (List.mem_cons_self a t) b (List.mem_cons_of_mem a hb))
        (pairwise_of_forall_mem t fun x hx y hy =>
          h x (List.mem_cons_of_mem a hx) y (List.mem_cons_of_mem a hy))

/-- When no record carries the sort key, every key is `""` and the stable
sort leaves the fetch order untouched. -/
theorem natsorted_eq_of_lookup_none (ob : String) (desc : Bool) (l : List Rec)
    (h : ∀ r ∈ l, r.lookup ob = none) : natsorted ob desc l = l := by
  apply natsorted_of_sorted
  apply pairwise_of_forall_mem
  intro a ha b hb
  unfold natRelation recKey
  rw [h a ha, h b hb]
  cases desc <;> simp [keyLe_refl]

/-- Normal form of a validated `get_page` call: the `Page` it returns, as a
function of the two round-trip results. -/
theorem get_page_eq_ok (modelFields : List String) (fetched : List Rec)
    (totalItems : Nat) (page size : Int) (orderBy sortOrder : Option String)
    (hp : 1 ≤ page) (hs : 1 ≤ size) :
    get_page modelFields true fetched totalItems page size orderBy sortOrder =
      Except.ok
        ⟨((match orderBy with
            | some ob =>
                if ob == "" then fetched.map (order_dict_by_model modelFields)
                else natsorted ob (resolveSortOrder sortOrder == "desc")
                  (fetched.map (order_dict_by_model modelFields))
            | none => fetched.map (order_dict_by_model modelFields)).drop
              ((page - 1) * size).toNat).take size.toNat,
          ⟨page, size, totalItems,
            if 0 < totalItems then (totalItems + size.toNat - 1) / size.toNat else 1⟩⟩ := by
  unfold get_page
  rw [if_neg (by simp), if_neg (by omega)]

/-- C9: `get_page` never validates `order_by`: for any non-field key the call
still succeeds, every converted record falls back to the empty-string sort
key, and the stable sort keeps the fetch order — the returned data is the
plain in-memory slice.  `get_all`, by contrast, rejects the same unknown
`order_by` with a `ValidationError`. -/
theorem get_page_unvalidated_order_by (modelFields : List String) (ob : String)
    (hob : ob ∉ modelFields) (hne : ob ≠ "") (fetched : List Rec) (totalItems : Nat)
    (page size : Int) (hp : 1 ≤ page) (hs : 1 ≤ size) (sortOrder : Option String) :
    (∃ pg, get_page modelFields true fetched totalItems page size (some ob) sortOrder =
        Except.ok pg ∧
      pg.data = ((fetched.map (order_dict_by_model modelFields)).drop
        ((page - 1) * size).toNat).take size.toNat) ∧
    get_all modelFields true [] (some ob) "asc" =
      Except.error (RepoErr.validationError ("Invalid order_by field: " ++ ob)) := by
  constructor
  · have hnat : natsorted ob (resolveSortOrder sortOrder == "desc")
        (fetched.map (order_dict_by_model modelFields)) =
        fetched.map (order_dict_by_model modelFields) := by
      apply natsorted_eq_of_lookup_none
      intro r hr
      obtain ⟨r0, _, rfl⟩ := List.mem_map.mp hr
      exact order_dict_lookup_of_not_mem modelFields ob hob r0
    refine ⟨_, get_page_eq_ok modelFields fetched totalItems page size (some ob) sortOrder hp hs, ?_⟩
    simp [beq_eq_false_iff_ne.mpr hne, hnat]
  · unfold get_all validateWhere
    rw [if_neg (by simp), if_neg (by simp)]
    simp [hne, hob]

def c9fetched : List Rec := [[("name", "beta")], [("name", "alpha")]]

theorem get_page_unvalidated_order_by_witness :
    ("bogus" ∉ ["name"]) ∧ ("bogus" ≠ "") ∧ (1 ≤ (1 : Int)) ∧ (1 ≤ (10 : Int)) ∧
    ((∃ pg, get_page ["name"] true c9fetched 2 1 10 (some "bogus") none = Except.ok pg ∧
        pg.data = ((c9fetched.map (order_dict_by_model ["name"])).drop
          (((1 : Int) - 1) * 10).toNat).take (10 : Int).toNat) ∧
      get_all ["name"] true [] (some "bogus") "asc" =
        Except.error (RepoErr.validationError ("Invalid order_by field: " ++ "bogus"))) :=
  ⟨by decide, by decide, by decide, by decide,
    get_page_unvalidated_order_by ["name"] "bogus" (by decide) (by decide) c9fetched 2 1 10
      (by decide) (by decide) none⟩

/-- The conversion keeps exactly the model fields present in the row, in the
entity descriptor's field order. -/
theorem order_dict_fields (modelFields : List String) (r : Rec) :
    (order_dict_by_model modelFields r).map Prod.fst =
      modelFields.filter fun f => (r.lookup f).isSome := by
  induction modelFields with
  | nil => rfl
  | cons f fs ih =>
      unfold order_dict_by_model at ih ⊢
      simp only [List.filterMap_cons, List.filter_cons]
      cases hr : r.lookup f with
      | none => simpa [hr] using ih
      | some v => simpa [hr] using ih

/-- C3: the `get_page` pipeline — all matching rows are fetched (the sort
only permutes them; no database-level limit/offset), each row is converted
to a record whose field order is fixed by the entity descriptor, the natural
sort runs only when `order_by` is given, and the page data is the in-memory
slice `items[(page-1)*size : (page-1)*size + size]` taken after sorting. -/
theorem get_page_pipeline (modelFields : List String) (fetched : List Rec)
    (totalItems : Nat) (page size : Int) (hp : 1 ≤ page) (hs : 1 ≤ size)
    (ob : String) (hne : ob ≠ "") (sortOrder : Option String) :
    (∃ pg, get_page modelFields true fetched totalItems page size (some ob) sortOrder =
        Except.ok pg ∧
      pg.data = ((natsorted ob (resolveSortOrder sortOrder == "desc")
        (fetched.map (order_dict_by_model modelFields))).drop
          ((page - 1) * size).toNat).take size.toNat) ∧
    (∃ pg, get_page modelFields true fetched totalItems page size none sortOrder =
        Except.ok pg ∧
      pg.data = ((fetched.map (order_dict_by_model modelFields)).drop
        ((page - 1) * size).toNat).take size.toNat) ∧
    List.Perm (natsorted ob (resolveSortOrder sortOrder == "desc")
        (fetched.map (order_dict_by_model modelFields)))
      (fetched.map (order_dict_by_model modelFields)) ∧
    ∀ r ∈ fetched, (order_dict_by_model modelFields r).map Prod.fst =
      modelFields.filter fun f => (r.lookup f).isSome := by
  refine ⟨?_, ?_, ?_, ?_⟩
  · refine ⟨_, get_page_eq_ok modelFields fetched totalItems page size (some ob) sortOrder hp hs, ?_⟩
    simp [beq_eq_false_iff_ne.mpr hne]
  · exact ⟨_, get_page_eq_ok modelFields fetched totalItems page size none sortOrder hp hs, rfl⟩
  · unfold natsorted
    exact List.perm_insertionSort _ _
  · intro r _
    exact order_dict_fields modelFields r

def c3fetched : List Rec := [[("sku", "item10")], [("sku", "item2")]]

theorem get_page_pipeline_witness :
    (1 ≤ (1 : Int)) ∧ (1 ≤ (5 : Int)) ∧ ("sku" ≠ "") ∧
    ((∃ pg, get_page ["sku"] true c3fetched 2 1 5 (some "sku") (some "asc") =
        Except.ok pg ∧
      pg.data = ((natsorted "sku" (resolveSortOrder (some "asc") == "desc")
        (c3fetched.map (order_dict_by_model ["sku"]))).drop
          (((1 : Int) - 1) * 5).toNat).take (5 : Int).toNat) ∧
    (∃ pg, get_page ["sku"] true c3fetched 2 1 5 none (some "asc") =
        Except.ok pg ∧
      pg.data = ((c3fetched.map (order_dict_by_model ["sku"])).drop
        (((1 : Int) - 1) * 5).toNat).take (5 : Int).toNat) ∧
    List.Perm (natsorted "sku" (resolveSortOrder (some "asc") == "desc")
        (c3fetched.map (order_dict_by_model ["sku"])))
      (c3fetched.map (order_dict_by_model ["sku"])) ∧
    ∀ r ∈ c3fetched, (order_dict_by_model ["sku"] r).map Prod.fst =
      ["sku"].filter fun f => (r.lookup f).isSome) :=
  ⟨by decide, by decide, by decide,
    get_page_pipeline ["sku"] c3fetched 2 1 5 (by decide) (by decide) "sku" (by decide)
      (some "asc")⟩

/-- `(t + s - 1) / s`, the Python `//`-based formula `get_page` computes, is
the ceiling of `t / s` for positive `t` and `s`. -/
theorem nat_ceil_div (t s : Nat) (ht : 0 < t) (hs : 0 < s) :
    (t + s - 1) / s = ⌈(t : ℚ) / (s : ℚ)⌉₊ := by
  have hdm : (t + s - 1) / s * s + (t + s - 1) % s = t + s - 1 := Nat.div_add_mod' _ s
  have hmod : (t + s - 1) % s < s := Nat.mod_lt _ hs
  have h1 : t ≤ (t + s - 1) / s * s := by omega
  have h2 : (t + s - 1) / s * s < t + s := by omega
  have hq1 : 1 ≤ (t + s - 1) / s := by
    rcases Nat.eq_zero_or_pos ((t + s - 1) / s) with h0 | h1'
    · rw [h0, Nat.zero_mul] at h1
      omega
    · exact h1'
  have hq1s : ((t + s - 1) / s - 1) * s < t := by
    have h3 := Nat.sub_mul ((t + s - 1) / s) 1 s
    rw [one_mul] at h3
    omega
  have hspos : (0 : ℚ) < s := by exact_mod_cast hs
  rw [eq_comm, Nat.ceil_eq_iff (by omega)]
  constructor
  · rw [lt_div_iff₀ hspos]
    exact_mod_cast hq1s
  · rw [div_le_iff₀ hspos]
    exact_mod_cast h1

/-- C2: every `get_page(page, size, ...)` call with `page >= 1`, `size >= 1`
that completes without error returns at most `size` records, and its
`total_pages` is `ceil(total_items / size)` when the count query returned a
positive `total_items`, and `1` when it returned zero. -/
theorem get_page_bounds_and_total_pages (modelFields : List String)
    (fetched : List Rec) (totalItems : Nat) (page size : Int)
    (hp : 1 ≤ page) (hs : 1 ≤ size) (orderBy sortOrder : Option String) (pg : Page)
    (h : get_page modelFields true fetched totalItems page size orderBy sortOrder =
      Except.ok pg) :
    (pg.data.length : Int) ≤ size ∧
    pg.pagination.total_pages =
      (if 0 < totalItems then ⌈(totalItems : ℚ) / ((size.toNat : Nat) : ℚ)⌉₊ else 1) := by
  rw [get_page_eq_ok modelFields fetched totalItems page size orderBy sortOrder hp hs] at h
  have hX := Except.ok.inj h
  constructor
  · have hlen : pg.data.length ≤ size.toNat := by
      rw [← hX]
      exact List.length_take_le _ _
    omega
  · rw [← hX]
    by_cases h0 : 0 < totalItems
    · simp only [if_pos h0]
      exact nat_ceil_div totalItems size.toNat h0 (by omega)
    · simp [h0]

def c2fetched : List Rec := [[("a", "1")], [("a", "2")], [("a", "3")]]

def c2page : Page := ⟨[[("a", "1")], [("a", "2")]], ⟨1, 2, 3, 2⟩⟩

theorem get_page_bounds_and_total_pages_witness :
    (1 ≤ (1 : Int)) ∧ (1 ≤ (2 : Int)) ∧
    (get_page ["a"] true c2fetched 3 1 2 none none = Except.ok c2page) ∧
    ((c2page.data.length : Int) ≤ 2 ∧
      c2page.pagination.total_pages =
        (if 0 < 3 then ⌈((3 : Nat) : ℚ) / ((((2 : Int).toNat : Nat)) : ℚ)⌉₊ else 1)) :=
  ⟨by decide, by decide, rfl,
    get_page_bounds_and_total_pages ["a"] c2fetched 3 1 2 (by decide) (by decide)
      none none c2page rfl⟩


/-! ### Lemmas about `setattr`, the update loop and the identity map -/

theorem contains_of_mem {k : String} {l : List String} (h : k ∈ l) :
    l.contains k = true := by
  simpa using h

theorem lookup_cons_str (k a b : String) (t : List (String × String)) :
    List.lookup k ((a, b) :: t) = if k = a then some b else t.lookup k := by
  by_cases h : k = a
  · simp [List.lookup, beq_iff_eq.mpr h, h]
  · simp [List.lookup, beq_eq_false_iff_ne.mpr h, h]

theorem lookup_cons_store (j a : Int) (b : Entity) (t : Store) :
    List.lookup j ((a, b) :: t) = if j = a then some b else t.lookup j := by
  by_cases h : j = a
  · simp [List.lookup, beq_iff_eq.mpr h, h]
  · simp [List.lookup, beq_eq_false_iff_ne.mpr h, h]

theorem setAttr_cons (a b k v : String) (t : Entity) :
    setAttr ((a, b) :: t) k v = (if a = k then (a, v) else (a, b)) :: setAttr t k v := by
  simp only [setAttr, List.map_cons]

theorem lookup_isSome_of_mem_keys {k : String} {e : Entity}
    (h : k ∈ e.map Prod.fst) : (e.lookup k).isSome := by
  induction e with
  | nil => simp at h
  | cons kv t ih =>
      obtain ⟨a, b⟩ := kv
      rw [lookup_cons_str]
      rw [List.map_cons] at h
      by_cases hk : k = a
      · simp [hk]
      · have h2 : k ∈ t.map Prod.fst := by
          rcases List.mem_cons.mp h with h1 | h1
          · exact absurd h1 hk
          · exact h1
        simpa [hk] using ih h2

theorem setAttr_keys (e : Entity) (k v : String) :
    (setAttr e k v).map Prod.fst = e.map Prod.fst := by
  induction e with
  | nil => rfl
  | cons kv t ih =>
      obtain ⟨a, b⟩ := kv
      rw [setAttr_cons]
      by_cases hk : a = k <;> simp [hk, ih]

theorem setAttr_lookup_self (e : Entity) (k v : String)
    (h : (e.lookup k).isSome) : (setAttr e k v).lookup k = some v := by
  induction e with
  | nil => simp [List.lookup] at h
  | cons kv t ih =>
      obtain ⟨a, b⟩ := kv
      rw [setAttr_cons]
      by_cases hk : a = k
      · rw [if_pos hk, lookup_cons_str, if_pos hk.symm]
      · rw [if_neg hk, lookup_cons_str, if_neg (fun hh => hk hh.symm)]
        rw [lookup_cons_str, if_neg (fun hh => hk hh.symm)] at h
        exact ih h

theorem setAttr_lookup_ne (e : Entity) (k v k' : String) (h : k' ≠ k) :
    (setAttr e k v).lookup k' = e.lookup k' := by
  induction e with
  | nil => rfl
  | cons kv t ih =>
      obtain ⟨a, b⟩ := kv
      rw [setAttr_cons, lookup_cons_str (t := t)]
      by_cases hk : a = k
      · rw [if_pos hk, lookup_cons_str, if_neg (fun hh => h (hh.trans hk)),
          if_neg (fun hh => h (hh.trans hk)), ih]
      · rw [if_neg hk, lookup_cons_str]
        by_cases hk' : k' = a
        · rw [if_pos hk', if_pos hk']
        · rw [if_neg hk', if_neg hk', ih]

/-- Behaviour of the `update` field-copy loop when every explicitly-set field
name is a model field: no validation error, the copied fields take their new
values (given the `dict`'s keys are unique), and every other field keeps its
prior value. -/
theorem applyDump_ok (modelFields : List String) :
    ∀ (dump : List (String × String)), (∀ kv ∈ dump, kv.1 ∈ modelFields) →
    ∀ e : Entity, e.map Prod.fst = modelFields →
      ∃ e2, applyDump modelFields e dump = (e2, none) ∧
        e2.map Prod.fst = modelFields ∧
        (∀ k, k ∉ dump.map Prod.fst → e2.lookup k = e.lookup k) ∧
        ((dump.map Prod.fst).Nodup → ∀ k v, (k, v) ∈ dump → e2.lookup k = some v) := by
  intro dump
  induction dump with
  | nil =>
      intro _ e he
      exact ⟨e, rfl, he, fun _ _ => rfl, fun _ k v h => absurd h (List.not_mem_nil _)⟩
  | cons kv rest ih =>
      intro hkeys e he
      obtain ⟨k, v⟩ := kv
      have hkmem : k ∈ modelFields := hkeys (k, v) (List.mem_cons_self _ _)
      have hstep : applyDump modelFields e ((k, v) :: rest) =
          applyDump modelFields (setAttr e k v) rest := by
        simp only [applyDump]
        rw [if_pos (contains_of_mem hkmem)]
      have he' : (setAttr e k v).map Prod.fst = modelFields := by
        rw [setAttr_keys, he]
      obtain ⟨e2, heq, hkeys2, hframe, hset⟩ :=
        ih (fun kv' hkv' => hkeys kv' (List.mem_cons_of_mem _ hkv')) (setAttr e k v) he'
      refine ⟨e2, hstep.trans heq, hkeys2, ?_, ?_⟩
      · intro k' hk'
        have hk1 : k' ≠ k := fun hh => hk' (by simp [hh])
        have hk2 : k' ∉ rest.map Prod.fst := fun hh => hk' (by simp [hh])
        rw [hframe k' hk2, setAttr_lookup_ne e k v k' hk1]
      · intro hnodup k' v' hmem
        rw [List.map_cons] at hnodup
        have hnodup2 := List.nodup_cons.mp hnodup
        rcases List.mem_cons.mp hmem with h1 | h2
        · injection h1 with hk hv
          rw [hk, hv]
          have hknotin : k ∉ rest.map Prod.fst := hnodup2.1
          rw [hframe k hknotin]
          exact setAttr_lookup_self e k v
            (lookup_isSome_of_mem_keys (he ▸ hkmem))
        · exact hset hnodup2.2 k' v' h2

theorem storeSet_lookup_ne (st : Store) (id : Int) (e2 : Entity) (j : Int)
    (h : j ≠ id) : (storeSet st id e2).lookup j = st.lookup j := by
  induction st with
  | nil => rfl
  | cons p t ih =>
      obtain ⟨a, b⟩ := p
      have hmap : storeSet ((a, b) :: t) id e2 =
          (if a = id then (a, e2) else (a, b)) :: storeSet t id e2 := by
        simp only [storeSet, List.map_cons]
      rw [hmap, lookup_cons_store (t := t)]
      by_cases ha : a = id
      · rw [if_pos ha, lookup_cons_store, if_neg (fun hh => h (hh.trans ha)),
          if_neg (fun hh => h (hh.trans ha)), ih]
      · rw [if_neg ha, lookup_cons_store]
        by_cases hj : j = a
        · rw [if_pos hj, if_pos hj]
        · rw [if_neg hj, if_neg hj, ih]

/-- C6: `update(id, partial_entity)` on an existing id succeeds and changes
exactly the fields explicitly set on the partial entity — each copied after
the `hasattr` field-name validation — while every unset field keeps its prior
stored value and other ids are untouched; on a missing id it raises the
not-found error and leaves the stored state unchanged. -/
theorem update_partial_semantics (modelFields : List String)
    (dump : List (String × String))
    (hdumpKeys : ∀ kv ∈ dump, kv.1 ∈ modelFields)
    (hnodup : (dump.map Prod.fst).Nodup) :
    (∀ (st : Store) (id : Int) (e : Entity), st.lookup id = some e →
      e.map Prod.fst = modelFields →
      ∃ e2, update modelFields st id dump = (storeSet st id e2, Except.ok e2) ∧
        (∀ k v, (k, v) ∈ dump → e2.lookup k = some v) ∧
        (∀ k, k ∉ dump.map Prod.fst → e2.lookup k = e.lookup k) ∧
        (∀ j, j ≠ id → (storeSet st id e2).lookup j = st.lookup j)) ∧
    (∀ (st : Store) (id : Int), st.lookup id = none →
      update modelFields st id dump =
        (st, Except.error
          (RepoErr.entityNotFound ("Entity not found with ID: " ++ toString id)))) := by
  constructor
  · intro st id e hfound he
    obtain ⟨e2, heq, _, hframe, hset⟩ := applyDump_ok modelFields dump hdumpKeys e he
    refine ⟨e2, ?_, hset hnodup, hframe, fun j hj => storeSet_lookup_ne st id e2 j hj⟩
    simp only [update, hfound, heq]
  · intro st id hnone
    simp only [update, hnone]

theorem update_partial_semantics_witness :
    (∀ kv ∈ [("name", "new name")], kv.1 ∈ ["id", "name", "status"]) ∧
    ([("name", "new name")].map Prod.fst).Nodup ∧
    ((∀ (st : Store) (id : Int) (e : Entity), st.lookup id = some e →
      e.map Prod.fst = ["id", "name", "status"] →
      ∃ e2, update ["id", "name", "status"] st id [("name", "new name")] =
          (storeSet st id e2, Except.ok e2) ∧
        (∀ k v, (k, v) ∈ [("name", "new name")] → e2.lookup k = some v) ∧
        (∀ k, k ∉ [("name", "new name")].map Prod.fst → e2.lookup k = e.lookup k) ∧
        (∀ j, j ≠ id → (storeSet st id e2).lookup j = st.lookup j)) ∧
    (∀ (st : Store) (id : Int), st.lookup id = none →
      update ["id", "name", "status"] st id [("name", "new name")] =
        (st, Except.error
          (RepoErr.entityNotFound ("Entity not found with ID: " ++ toString id))))) :=
  ⟨by decide, by decide,
    update_partial_semantics ["id", "name", "status"] [("name", "new name")]
      (by decide) (by decide)⟩

end BaseRepo
